import Mathlib

/-!
Shallow embedding of the bounded in-memory cache engine implemented by
`CacheSimulator` in `correlation_finder.py`.

Modelling choices:
* The `OrderedDict` backing `self.cache` is an association list
  `List (String × Entry α)` kept in the dict's iteration order (head =
  oldest position, tail = most recent).  Assignment to an existing key
  replaces the entry in place and keeps its position, exactly as Python's
  `dict` does; assignment of a new key appends at the end.
* `time.time()` is an explicit `now : Int` argument threaded into each
  call (the two consecutive `time.time()` calls inside `set` are modelled
  as the same instant).
* `random.choice(self.strategies)` in the constructor is modelled by
  passing the chosen strategy as an explicit argument of type `Strategy`,
  whose four constructors are exactly the four strings in
  `self.strategies`.
* Values are an opaque type parameter `α`.
* The `threading.Lock` only serialises the method bodies; each public
  operation is embedded as one atomic state transformer.
-/

/-- The four eviction strategies in `self.strategies`. -/
inductive Strategy where
  | lru
  | lfu
  | fifo
  | ttl
  deriving DecidableEq, Repr

/-- One cache entry: the dict stored by `CacheSimulator.set`
(`value`, `expires`, `created`, `accessed`, `last_access`). -/
structure Entry (α : Type) where
  value : α
  expires : Int
  created : Int
  accessed : Nat
  last_access : Option Int
  deriving DecidableEq, Repr

/-- The mutable state of a `CacheSimulator` instance. -/
structure CacheState (α : Type) where
  max_size : Int
  ttl : Int
  cache : List (String × Entry α)
  access_count : List (String × Nat)
  hit_count : Nat
  miss_count : Nat
  eviction_count : Nat
  strategy : Strategy
  deriving Repr

/-- `self.cache[key] = entry` on an ordered dict: replace in place when the
key is present, append at the end when it is new. -/
def ordInsert {α : Type} : List (String × Entry α) → String → Entry α → List (String × Entry α)
  | [], key, e => [(key, e)]
  | (k, e0) :: rest, key, e =>
      if k = key then (key, e) :: rest else (k, e0) :: ordInsert rest key e

/-- `del self.cache[key]`: remove the first (hence, keys being unique, the
only) binding of `key`, keeping all other positions. -/
def eraseKey {α : Type} (cache : List (String × Entry α)) (key : String) : List (String × Entry α) :=
  cache.eraseP (fun p => p.1 == key)

/-- `self.access_count[key] += 1` on the `defaultdict(int)`. -/
def bumpCount : List (String × Nat) → String → List (String × Nat)
  | [], key => [(key, 1)]
  | (k, n) :: rest, key =>
      if k = key then (k, n + 1) :: rest else (k, n) :: bumpCount rest key

/-- Python's `min(keys, key=f)` over the tail of the iteration order, with
`best`/`b` the current best key and its measure: the candidate is replaced
only on a strictly smaller measure, so the first key attaining the minimum
wins. -/
def minKeyFold {α : Type} (f : Entry α → Int) : String → Int → List (String × Entry α) → String
  | best, _, [] => best
  | best, b, (k, e) :: rest =>
      if f e < b then minKeyFold f k (f e) rest else minKeyFold f best b rest

/-- `CacheSimulator.evict`: on an empty store return `None` and change
nothing; otherwise pick the victim by the active strategy (`lru` pops the
first item, `fifo` takes the first key, `lfu` takes the `min` by
`accessed`, `ttl` the `min` by `expires`), delete it and increment
`eviction_count`.  Returns `(evicted key, new state)`. -/
def CacheSimulator.evict {α : Type} (s : CacheState α) : Option String × CacheState α :=
  match s.cache with
  | [] => (none, s)
  | (k0, e0) :: rest =>
      let key : String :=
        match s.strategy with
        | .lru => k0
        | .lfu => minKeyFold (fun e => (e.accessed : Int)) k0 (e0.accessed : Int) rest
        | .fifo => k0
        | .ttl => minKeyFold (fun e => e.expires) k0 e0.expires rest
      (some key,
        { s with cache := eraseKey s.cache key, eviction_count := s.eviction_count + 1 })

/-- `CacheSimulator.set`: if `len(self.cache) >= self.max_size` first call
`evict()`; then store the new entry with
`expires = now + (custom_ttl or self.ttl)` — note that Python's `or`
falls back to `self.ttl` when `custom_ttl` is `None` **or `0`** (falsy) —
and `created = now`, `accessed = 0`, `last_access = None`.
Returns `(True, new state)`. -/
def CacheSimulator.set {α : Type} (s : CacheState α) (key : String) (value : α)
    (custom_ttl : Option Int) (now : Int) : Bool × CacheState α :=
  let s1 := if s.max_size ≤ (s.cache.length : Int) then (CacheSimulator.evict s).2 else s
  let eff : Int :=
    match custom_ttl with
    | none => s1.ttl
    | some t => if t = 0 then s1.ttl else t
  let e : Entry α :=
    { value := value, expires := now + eff, created := now, accessed := 0, last_access := none }
  (true, { s1 with cache := ordInsert s1.cache key e })

/-- `CacheSimulator.get`: a missing key is a miss; a present key with
`now > expires` (strictly) is deleted and counted as both a miss and an
eviction; otherwise the entry's `accessed`/`last_access` are updated, the
key is moved to the end of the order when the strategy is `lru`,
`hit_count` and `access_count[key]` are incremented and the value
returned.  Returns `(returned value, new state)`. -/
def CacheSimulator.get {α : Type} (s : CacheState α) (key : String) (now : Int) :
    Option α × CacheState α :=
  match List.lookup key s.cache with
  | none => (none, { s with miss_count := s.miss_count + 1 })
  | some item =>
      if item.expires < now then
        (none,
          { s with cache := eraseKey s.cache key,
                   miss_count := s.miss_count + 1,
                   eviction_count := s.eviction_count + 1 })
      else
        let item' : Entry α :=
          { item with accessed := item.accessed + 1, last_access := some now }
        let cache1 := ordInsert s.cache key item'
        let cache2 :=
          if s.strategy = .lru then eraseKey cache1 key ++ [(key, item')] else cache1
        (some item.value,
          { s with cache := cache2,
                   hit_count := s.hit_count + 1,
                   access_count := bumpCount s.access_count key })

/-- The explicit deletion performed by the workload driver:
`if key in self.cache: del self.cache[key]` (no counter changes). -/
def CacheSimulator.delete {α : Type} (s : CacheState α) (key : String) : CacheState α :=
  if (List.lookup key s.cache).isSome then { s with cache := eraseKey s.cache key } else s

/-- `CacheSimulator.__init__`: assigns the configuration and empty
bookkeeping structures.  The strategy argument models the result of
`random.choice(self.strategies)`. -/
def CacheSimulator.init {α : Type} (max_size : Int) (ttl : Int) (strategy : Strategy) :
    CacheState α :=
  { max_size := max_size, ttl := ttl, cache := [], access_count := [],
    hit_count := 0, miss_count := 0, eviction_count := 0, strategy := strategy }

/-- `CacheSimulator.__init__` embedded in an error monad, to talk about
construction failure: the constructor body contains no validation and no
`raise`, so it always returns `ok`. -/
def CacheSimulator.initE {α : Type} (max_size : Int) (ttl : Int) (strategy : Strategy) :
    Except String (CacheState α) :=
  Except.ok (CacheSimulator.init max_size ttl strategy)

/-- One public operation on the cache, with its `time.time()` instant. -/
inductive Op (α : Type) where
  | set (key : String) (value : α) (custom_ttl : Option Int) (now : Int)
  | get (key : String) (now : Int)
  | evict
  | delete (key : String)

/-- Apply one operation to the state. -/
def step {α : Type} (s : CacheState α) : Op α → CacheState α
  | .set k v t now => (CacheSimulator.set s k v t now).2
  | .get k now => (CacheSimulator.get s k now).2
  | .evict => (CacheSimulator.evict s).2
  | .delete k => CacheSimulator.delete s k

/-- Apply a sequence of operations from left to right. -/
def run {α : Type} (s : CacheState α) (ops : List (Op α)) : CacheState α :=
  ops.foldl step s

/-- Number of `get` calls in a sequence of operations. -/
def countGets {α : Type} : List (Op α) → Nat
  | [] => 0
  | .get _ _ :: rest => countGets rest + 1
  | _ :: rest => countGets rest

/-- An operation whose effective ttl cannot poison the store: any non-`set`
operation, a `set` without custom ttl, a `set` with the falsy custom ttl
`0`, or a `set` with a positive custom ttl. -/
def ttlOk {α : Type} : Op α → Bool
  | .set _ _ (some t) _ => decide (t = 0) || decide (0 < t)
  | _ => true

/-! ### Basic lemmas about the ordered-dict primitives -/

theorem ordInsert_length_le {α : Type} (c : List (String × Entry α)) (k : String) (e : Entry α) :
    (ordInsert c k e).length ≤ c.length + 1 := by
  induction c with
  | nil => simp [ordInsert]
  | cons p rest ih =>
      obtain ⟨k0, e0⟩ := p
      by_cases h : k0 = k <;> simp [ordInsert, h] <;> omega

theorem mem_ordInsert {α : Type} {c : List (String × Entry α)} {k : String} {e : Entry α}
    {p : String × Entry α} (hp : p ∈ ordInsert c k e) : p = (k, e) ∨ p ∈ c := by
  induction c with
  | nil => simpa [ordInsert] using hp
  | cons q rest ih =>
      obtain ⟨k0, e0⟩ := q
      by_cases h : k0 = k
      · simp [ordInsert, h] at hp
        rcases hp with hp | hp
        · exact Or.inl (by simp [hp])
        · exact Or.inr (by simp [hp])
      · simp [ordInsert, h] at hp
        rcases hp with hp | hp
        · exact Or.inr (by simp [hp])
        · rcases ih hp with hp' | hp'
          · exact Or.inl hp'
          · exact Or.inr (by simp [hp'])

theorem ordInsert_map_fst {α : Type} (c : List (String × Entry α)) (k : String) (e : Entry α) :
    (ordInsert c k e).map Prod.fst =
      if k ∈ c.map Prod.fst then c.map Prod.fst else c.map Prod.fst ++ [k] := by
  induction c with
  | nil => simp [ordInsert]
  | cons p rest ih =>
      obtain ⟨k0, e0⟩ := p
      by_cases h : k0 = k
      · simp [ordInsert, h]
      · have hne : ¬ k = k0 := fun hk => h hk.symm
        by_cases hmem : k ∈ rest.map Prod.fst <;>
          simp [ordInsert, h, hne, hmem, ih]

theorem eraseKey_nil {α : Type} (k : String) : eraseKey ([] : List (String × Entry α)) k = [] := rfl

theorem eraseKey_cons {α : Type} (k0 : String) (e0 : Entry α) (rest : List (String × Entry α))
    (k : String) :
    eraseKey ((k0, e0) :: rest) k =
      if k0 = k then rest else (k0, e0) :: eraseKey rest k := by
  by_cases h : k0 = k <;> simp [eraseKey, List.eraseP_cons, h]

theorem eraseKey_length_le {α : Type} (c : List (String × Entry α)) (k : String) :
    (eraseKey c k).length ≤ c.length := by
  induction c with
  | nil => simp [eraseKey_nil]
  | cons p rest ih =>
      obtain ⟨k0, e0⟩ := p
      by_cases h : k0 = k <;> simp [eraseKey_cons, h] <;> omega

theorem eraseKey_length_of_mem {α : Type} {c : List (String × Entry α)} {k : String}
    (h : k ∈ c.map Prod.fst) : (eraseKey c k).length + 1 = c.length := by
  induction c with
  | nil => simp at h
  | cons p rest ih =>
      obtain ⟨k0, e0⟩ := p
      by_cases hk : k0 = k
      · simp [eraseKey_cons, hk]
      · have : k ∈ rest.map Prod.fst := by
          simp at h
          rcases h with h | h
          · exact absurd h.symm hk
          · simpa using h
        simp [eraseKey_cons, hk, ih this]

theorem eraseKey_subset {α : Type} {c : List (String × Entry α)} {k : String}
    {p : String × Entry α} (hp : p ∈ eraseKey c k) : p ∈ c := by
  induction c with
  | nil => simpa [eraseKey_nil] using hp
  | cons q rest ih =>
      obtain ⟨k0, e0⟩ := q
      by_cases h : k0 = k
      · simp [eraseKey_cons, h] at hp
        exact List.mem_cons_of_mem _ hp
      · simp [eraseKey_cons, h] at hp
        rcases hp with hp | hp
        · simp [hp]
        · exact List.mem_cons_of_mem _ (ih hp)

theorem eraseKey_ordInsert {α : Type} (c : List (String × Entry α)) (k : String) (e : Entry α) :
    eraseKey (ordInsert c k e) k = eraseKey c k := by
  induction c with
  | nil => simp [ordInsert, eraseKey_nil, eraseKey_cons]
  | cons p rest ih =>
      obtain ⟨k0, e0⟩ := p
      by_cases h : k0 = k
      · simp [ordInsert, h, eraseKey_cons]
      · simp [ordInsert, h, eraseKey_cons, ih]

theorem eraseKey_append_of_not_mem {α : Type} {l1 : List (String × Entry α)} {k : String}
    (e : Entry α) (l2 : List (String × Entry α)) (h : k ∉ l1.map Prod.fst) :
    eraseKey (l1 ++ (k, e) :: l2) k = l1 ++ l2 := by
  induction l1 with
  | nil => simp [eraseKey_cons]
  | cons p rest ih =>
      obtain ⟨k0, e0⟩ := p
      have hk : ¬ k0 = k := by
        intro hk
        exact h (by simp [hk])
      have hrest : k ∉ rest.map Prod.fst := by
        intro hr
        exact h (by simp [hr])
      simp [eraseKey_cons, hk, ih hrest]

theorem lookup_mem {α : Type} {c : List (String × Entry α)} {k : String} {e : Entry α}
    (h : List.lookup k c = some e) : (k, e) ∈ c := by
  induction c with
  | nil => simp [List.lookup] at h
  | cons p rest ih =>
      obtain ⟨k0, e0⟩ := p
      by_cases hk : k = k0
      · simp [List.lookup, hk] at h
        simp [hk, h]
      · have hbeq : (k == k0) = false := by simpa using hk
        simp [List.lookup, hbeq] at h
        exact List.mem_cons_of_mem _ (ih h)

theorem lookup_mem_fst {α : Type} {c : List (String × Entry α)} {k : String} {e : Entry α}
    (h : List.lookup k c = some e) : k ∈ c.map Prod.fst := by
  have := lookup_mem h
  exact List.mem_map.2 ⟨(k, e), this, rfl⟩

theorem minKeyFold_mem {α : Type} (f : Entry α → Int) :
    ∀ (l : List (String × Entry α)) (best : String) (b : Int),
      minKeyFold f best b l = best ∨ minKeyFold f best b l ∈ l.map Prod.fst := by
  intro l
  induction l with
  | nil => intro best b; simp [minKeyFold]
  | cons p rest ih =>
      intro best b
      obtain ⟨k, e⟩ := p
      by_cases h : f e < b
      · rcases ih k (f e) with h' | h' <;> simp [minKeyFold, h, h']
      · rcases ih best b with h' | h' <;> simp [minKeyFold, h, h']

/-- Full characterisation of Python's `min(keys, key=f)` fold: either no
element beats the running best (and the best is returned), or the result is
the first element attaining the overall minimum: strictly smaller than the
running best, strictly smaller than everything before it, and at most
everything after it. -/
theorem minKeyFold_split {α : Type} (f : Entry α → Int) :
    ∀ (l : List (String × Entry α)) (best : String) (b : Int),
      (minKeyFold f best b l = best ∧ ∀ p ∈ l, b ≤ f p.2) ∨
      (∃ l1 p l2, l = l1 ++ p :: l2 ∧ minKeyFold f best b l = p.1 ∧ f p.2 < b ∧
        (∀ q ∈ l1, f p.2 < f q.2) ∧ (∀ q ∈ l2, f p.2 ≤ f q.2)) := by
  intro l
  induction l with
  | nil => intro best b; exact Or.inl ⟨rfl, by simp⟩
  | cons p rest ih =>
      intro best b
      obtain ⟨k, e⟩ := p
      by_cases h : f e < b
      · rcases ih k (f e) with ⟨heq, hall⟩ | ⟨l1, q, l2, hsplit, heq, hlt, hbefore, hafter⟩
        · refine Or.inr ⟨[], (k, e), rest, by simp, ?_, h, by simp, ?_⟩
          · simpa [minKeyFold, h] using heq
          · intro q hq; exact hall q hq
        · refine Or.inr ⟨(k, e) :: l1, q, l2, by simp [hsplit], ?_, lt_trans hlt h, ?_, hafter⟩
          · simpa [minKeyFold, h] using heq
          · intro r hr
            rcases List.mem_cons.1 hr with hr | hr
            · simpa [hr] using hlt
            · exact hbefore r hr
      · rcases ih best b with ⟨heq, hall⟩ | ⟨l1, q, l2, hsplit, heq, hlt, hbefore, hafter⟩
        · refine Or.inl ⟨by simpa [minKeyFold, h] using heq, ?_⟩
          intro q hq
          rcases List.mem_cons.1 hq with hq | hq
          · simpa [hq] using not_lt.1 h
          · exact hall q hq
        · refine Or.inr ⟨(k, e) :: l1, q, l2, by simp [hsplit], ?_, hlt, ?_, hafter⟩
          · simpa [minKeyFold, h] using heq
          · intro r hr
            rcases List.mem_cons.1 hr with hr | hr
            · have : b ≤ f e := not_lt.1 h
              have := lt_of_lt_of_le hlt this
              simpa [hr] using this
            · exact hbefore r hr

/-! ### Structure of `evict` -/

theorem evict_empty {α : Type} {s : CacheState α} (h : s.cache = []) :
    CacheSimulator.evict s = (none, s) := by
  simp [CacheSimulator.evict, h]

theorem evict_nonempty {α : Type} {s : CacheState α} (h : s.cache ≠ []) :
    ∃ k, k ∈ s.cache.map Prod.fst ∧
      CacheSimulator.evict s =
        (some k, { s with cache := eraseKey s.cache k,
                          eviction_count := s.eviction_count + 1 }) := by
  rcases hc : s.cache with _ | ⟨⟨k0, e0⟩, rest⟩
  · exact absurd hc h
  · cases hstrat : s.strategy
    case lru =>
      exact ⟨k0, by simp [hc], by simp [CacheSimulator.evict, hc, hstrat]⟩
    case fifo =>
      exact ⟨k0, by simp [hc], by simp [CacheSimulator.evict, hc, hstrat]⟩
    case lfu =>
      refine ⟨minKeyFold (fun e => (e.accessed : Int)) k0 (e0.accessed : Int) rest, ?_, ?_⟩
      · rcases minKeyFold_mem (fun e => (e.accessed : Int)) rest k0 (e0.accessed : Int) with
          h' | h' <;> simp [hc, h']
      · simp [CacheSimulator.evict, hc, hstrat]
    case ttl =>
      refine ⟨minKeyFold (fun e => e.expires) k0 e0.expires rest, ?_, ?_⟩
      · rcases minKeyFold_mem (fun e => e.expires) rest k0 e0.expires with
          h' | h' <;> simp [hc, h']
      · simp [CacheSimulator.evict, hc, hstrat]

theorem evict_cache_length_le {α : Type} (s : CacheState α) :
    (CacheSimulator.evict s).2.cache.length ≤ s.cache.length := by
  by_cases h : s.cache = []
  · simp [evict_empty h]
  · obtain ⟨k, _, heq⟩ := evict_nonempty h
    simp [heq, eraseKey_length_le]

theorem evict_cache_length_of_nonempty {α : Type} {s : CacheState α} (h : s.cache ≠ []) :
    (CacheSimulator.evict s).2.cache.length + 1 = s.cache.length := by
  obtain ⟨k, hmem, heq⟩ := evict_nonempty h
  simp [heq, eraseKey_length_of_mem hmem]

/-! ### Configuration fields are never mutated by any operation -/

theorem evict_config {α : Type} (s : CacheState α) :
    (CacheSimulator.evict s).2.max_size = s.max_size ∧
    (CacheSimulator.evict s).2.ttl = s.ttl ∧
    (CacheSimulator.evict s).2.strategy = s.strategy := by
  by_cases h : s.cache = []
  · simp [evict_empty h]
  · obtain ⟨k, _, heq⟩ := evict_nonempty h
    simp [heq]

theorem step_config {α : Type} (s : CacheState α) (op : Op α) :
    (step s op).max_size = s.max_size ∧
    (step s op).ttl = s.ttl ∧
    (step s op).strategy = s.strategy := by
  cases op with
  | set k v t now =>
      have h1 := evict_config s
      by_cases h : s.max_size ≤ (s.cache.length : Int) <;>
        simp [step, CacheSimulator.set, h, h1.1, h1.2.1, h1.2.2]
  | get k now =>
      cases hl : List.lookup k s.cache with
      | none => simp [step, CacheSimulator.get, hl]
      | some item =>
          by_cases h : item.expires < now <;> simp [step, CacheSimulator.get, hl, h]
  | evict => exact evict_config s
  | delete k =>
      by_cases h : (List.lookup k s.cache).isSome <;> simp [step, CacheSimulator.delete, h]

theorem run_config {α : Type} (s : CacheState α) (ops : List (Op α)) :
    (run s ops).max_size = s.max_size ∧
    (run s ops).ttl = s.ttl ∧
    (run s ops).strategy = s.strategy := by
  induction ops generalizing s with
  | nil => exact ⟨rfl, rfl, rfl⟩
  | cons op rest ih =>
      have h1 := step_config s op
      have h2 := ih (step s op)
      exact ⟨h2.1.trans h1.1, h2.2.1.trans h1.2.1, h2.2.2.trans h1.2.2⟩

theorem ordInsert_length_of_mem {α : Type} {c : List (String × Entry α)} {k : String}
    (e : Entry α) (h : k ∈ c.map Prod.fst) : (ordInsert c k e).length = c.length := by
  have hmap := ordInsert_map_fst c k e
  have h2 : ((ordInsert c k e).map Prod.fst).length = (c.map Prod.fst).length := by
    rw [hmap]; simp [h]
  simpa using h2

/-- One step never pushes the store size above `max_size`, provided
`max_size` is positive and the bound held before. -/
theorem step_length_le {α : Type} {s : CacheState α} (hcap : 1 ≤ s.max_size)
    (hlen : (s.cache.length : Int) ≤ s.max_size) (op : Op α) :
    ((step s op).cache.length : Int) ≤ s.max_size := by
  cases op with
  | set k v t now =>
      by_cases h : s.max_size ≤ (s.cache.length : Int)
      · have hne : s.cache ≠ [] := by
          intro hnil
          rw [hnil] at h
          simp at h
          omega
        have hev := evict_cache_length_of_nonempty (s := s) hne
        have hins := ordInsert_length_le (CacheSimulator.evict s).2.cache k
          { value := v,
            expires := now + (match t with | none => (CacheSimulator.evict s).2.ttl
                                           | some t' => if t' = 0 then (CacheSimulator.evict s).2.ttl else t'),
            created := now, accessed := 0, last_access := none }
        simp only [step, CacheSimulator.set, if_pos h]
        have : (CacheSimulator.evict s).2.cache.length + 1 ≤ s.cache.length + 1 := by omega
        push_cast
        push_cast at hlen
        omega
      · have hlt : (s.cache.length : Int) + 1 ≤ s.max_size := by omega
        have hins := ordInsert_length_le s.cache k
          { value := v,
            expires := now + (match t with | none => s.ttl
                                           | some t' => if t' = 0 then s.ttl else t'),
            created := now, accessed := 0, last_access := none }
        simp only [step, CacheSimulator.set, if_neg h]
        push_cast
        omega
  | get k now =>
      cases hl : List.lookup k s.cache with
      | none => simpa [step, CacheSimulator.get, hl] using hlen
      | some item =>
          by_cases h : item.expires < now
          · have := eraseKey_length_le s.cache k
            simp only [step, CacheSimulator.get, hl, if_pos h]
            push_cast
            push_cast at hlen
            omega
          · have hmem : k ∈ s.cache.map Prod.fst := lookup_mem_fst hl
            by_cases hstrat : s.strategy = .lru
            · have h1 := eraseKey_ordInsert s.cache k
                { item with accessed := item.accessed + 1, last_access := some now }
              have h2 := eraseKey_length_of_mem (c := s.cache) (k := k) hmem
              simp only [step, CacheSimulator.get, hl, if_neg h, if_pos hstrat]
              rw [h1]
              have : (eraseKey s.cache k ++
                  [(k, { item with accessed := item.accessed + 1, last_access := some now })]).length
                  = s.cache.length := by
                simp
                omega
              rw [this]
              exact hlen
            · have h3 := ordInsert_length_of_mem
                (c := s.cache) (k := k)
                { item with accessed := item.accessed + 1, last_access := some now } hmem
              simp only [step, CacheSimulator.get, hl, if_neg h, if_neg hstrat]
              rw [h3]
              exact hlen
  | evict =>
      have := evict_cache_length_le s
      have : ((CacheSimulator.evict s).2.cache.length : Int) ≤ (s.cache.length : Int) := by
        exact_mod_cast this
      calc ((step s Op.evict).cache.length : Int)
          = ((CacheSimulator.evict s).2.cache.length : Int) := rfl
        _ ≤ (s.cache.length : Int) := this
        _ ≤ s.max_size := hlen
  | delete k =>
      by_cases h : (List.lookup k s.cache).isSome
      · have := eraseKey_length_le s.cache k
        simp only [step, CacheSimulator.delete, if_pos h]
        push_cast
        push_cast at hlen
        omega
      · simpa [step, CacheSimulator.delete, h] using hlen

theorem run_length_le {α : Type} (s : CacheState α) (hcap : 1 ≤ s.max_size)
    (hlen : (s.cache.length : Int) ≤ s.max_size) (ops : List (Op α)) :
    ((run s ops).cache.length : Int) ≤ s.max_size := by
  induction ops generalizing s with
  | nil => exact hlen
  | cons op rest ih =>
      have hconf := (step_config s op).1
      have hcap' : 1 ≤ (step s op).max_size := by rw [hconf]; exact hcap
      have hlen' : ((step s op).cache.length : Int) ≤ (step s op).max_size := by
        rw [hconf]; exact step_length_le hcap hlen op
      have := ih (step s op) hcap' hlen'
      rw [hconf] at this
      exact this

/-- Claim C1: for every cache constructed with a positive capacity and every
sequence of operations (in particular every sequence of `set` calls, with
arbitrary keys, values and ttl arguments), the number of entries in the
store is at most the capacity after every call returns. -/
theorem C1_capacity_invariant {α : Type} (cap dttl : Int) (strat : Strategy)
    (h : 1 ≤ cap) (ops : List (Op α)) :
    (((run (CacheSimulator.init cap dttl strat) ops).cache.length : Int)) ≤ cap := by
  have := run_length_le (CacheSimulator.init (α := α) cap dttl strat) (by simpa)
    (by simp [CacheSimulator.init]; omega) ops
  simpa [CacheSimulator.init] using this

/-- Witness for C1 at a concrete input: capacity 2, three inserts. -/
theorem C1_capacity_invariant_witness :
    (((run (CacheSimulator.init (α := Nat) 2 300 .lru)
        [.set "a" 1 none 0, .set "b" 2 none 0, .set "c" 3 none 0]).cache.length : Int)) ≤ 2 :=
  C1_capacity_invariant 2 300 .lru (by decide)
    [.set "a" 1 none 0, .set "b" 2 none 0, .set "c" 3 none 0]

/-! ### Counter accounting -/

theorem get_hit_miss {α : Type} (s : CacheState α) (k : String) (now : Int) :
    ((CacheSimulator.get s k now).2.hit_count = s.hit_count + 1 ∧
     (CacheSimulator.get s k now).2.miss_count = s.miss_count) ∨
    ((CacheSimulator.get s k now).2.hit_count = s.hit_count ∧
     (CacheSimulator.get s k now).2.miss_count = s.miss_count + 1) := by
  cases hl : List.lookup k s.cache with
  | none => exact Or.inr (by simp [CacheSimulator.get, hl])
  | some item =>
      by_cases h : item.expires < now
      · exact Or.inr (by simp [CacheSimulator.get, hl, h])
      · exact Or.inl (by simp [CacheSimulator.get, hl, h])

theorem set_hit_miss {α : Type} (s : CacheState α) (k : String) (v : α) (t : Option Int)
    (now : Int) :
    (CacheSimulator.set s k v t now).2.hit_count = s.hit_count ∧
    (CacheSimulator.set s k v t now).2.miss_count = s.miss_count := by
  by_cases h : s.max_size ≤ (s.cache.length : Int)
  · by_cases hc : s.cache = []
    · simp [CacheSimulator.set, h, evict_empty hc]
    · obtain ⟨k', _, heq⟩ := evict_nonempty hc
      simp [CacheSimulator.set, h, heq]
  · simp [CacheSimulator.set, h]

theorem evict_hit_miss {α : Type} (s : CacheState α) :
    (CacheSimulator.evict s).2.hit_count = s.hit_count ∧
    (CacheSimulator.evict s).2.miss_count = s.miss_count := by
  by_cases hc : s.cache = []
  · simp [evict_empty hc]
  · obtain ⟨k', _, heq⟩ := evict_nonempty hc
    simp [heq]

theorem delete_hit_miss {α : Type} (s : CacheState α) (k : String) :
    (CacheSimulator.delete s k).hit_count = s.hit_count ∧
    (CacheSimulator.delete s k).miss_count = s.miss_count := by
  by_cases h : (List.lookup k s.cache).isSome <;> simp [CacheSimulator.delete, h]

theorem run_hit_miss {α : Type} (s : CacheState α) (ops : List (Op α)) :
    (run s ops).hit_count + (run s ops).miss_count
      = s.hit_count + s.miss_count + countGets ops := by
  induction ops generalizing s with
  | nil => simp [run, countGets]
  | cons op rest ih =>
      have hrun : run s (op :: rest) = run (step s op) rest := rfl
      rw [hrun, ih (step s op)]
      cases op with
      | set k v t now =>
          have := set_hit_miss s k v t now
          simp [step, countGets, this.1, this.2]
      | get k now =>
          rcases get_hit_miss s k now with ⟨h1, h2⟩ | ⟨h1, h2⟩ <;>
            simp [step, countGets, h1, h2] <;> omega
      | evict =>
          have := evict_hit_miss s
          simp [step, countGets, this.1, this.2]
      | delete k =>
          have := delete_hit_miss s k
          simp [step, countGets, this.1, this.2]

/-- Claim C2: after any sequence of operations, `hit_count + miss_count`
equals the number of `get` calls issued; every `get` increments exactly one
of the two counters by exactly one, and `set`, `evict` and explicit
deletion change neither counter. -/
theorem C2_hit_miss_accounting {α : Type} (cap dttl : Int) (strat : Strategy)
    (ops : List (Op α)) :
    ((run (CacheSimulator.init cap dttl strat) ops).hit_count
        + (run (CacheSimulator.init cap dttl strat) ops).miss_count = countGets ops) ∧
    (∀ (s : CacheState α) (k : String) (now : Int),
        ((CacheSimulator.get s k now).2.hit_count = s.hit_count + 1 ∧
         (CacheSimulator.get s k now).2.miss_count = s.miss_count) ∨
        ((CacheSimulator.get s k now).2.hit_count = s.hit_count ∧
         (CacheSimulator.get s k now).2.miss_count = s.miss_count + 1)) ∧
    (∀ (s : CacheState α) (k : String) (v : α) (t : Option Int) (now : Int),
        (CacheSimulator.set s k v t now).2.hit_count = s.hit_count ∧
        (CacheSimulator.set s k v t now).2.miss_count = s.miss_count) ∧
    (∀ s : CacheState α,
        (CacheSimulator.evict s).2.hit_count = s.hit_count ∧
        (CacheSimulator.evict s).2.miss_count = s.miss_count) ∧
    (∀ (s : CacheState α) (k : String),
        (CacheSimulator.delete s k).hit_count = s.hit_count ∧
        (CacheSimulator.delete s k).miss_count = s.miss_count) := by
  refine ⟨?_, get_hit_miss, set_hit_miss, evict_hit_miss, delete_hit_miss⟩
  have := run_hit_miss (CacheSimulator.init (α := α) cap dttl strat) ops
  simpa [CacheSimulator.init] using this

/-! ### Expiry semantics (C3, C4) -/

/-- Counterexample to claim C3: with an entry whose `expires` is 300, a
`get` issued exactly at `now = 300` (so `now ≥ expires_at`) still returns
the stored value and counts a hit — the code expires only on the strict
comparison `time.time() > item['expires']`. -/
theorem C3_counterexample :
    (List.lookup "k" (run (CacheSimulator.init (α := Nat) 10 300 .lru)
        [.set "k" 7 none 0]).cache = some ⟨7, 300, 0, 0, none⟩) ∧
    (CacheSimulator.get (run (CacheSimulator.init (α := Nat) 10 300 .lru)
        [.set "k" 7 none 0]) "k" 300).1 = some 7 ∧
    (CacheSimulator.get (run (CacheSimulator.init (α := Nat) 10 300 .lru)
        [.set "k" 7 none 0]) "k" 300).2.hit_count = 1 ∧
    (CacheSimulator.get (run (CacheSimulator.init (α := Nat) 10 300 .lru)
        [.set "k" 7 none 0]) "k" 300).2.miss_count = 0 ∧
    (CacheSimulator.get (run (CacheSimulator.init (α := Nat) 10 300 .lru)
        [.set "k" 7 none 0]) "k" 300).2.eviction_count = 0 := by
  decide

/-- Claim C3 as amended: for every key present in the store, a `get`
issued strictly after `expires_at` (`now > expires_at`) returns absent,
removes the entry, increments `miss_count` and `eviction_count` each by
exactly one, and leaves `hit_count` unchanged; at `now = expires_at` the
value is still returned. -/
theorem C3_expiry_amended {α : Type} (s : CacheState α) (key : String) (item : Entry α)
    (now : Int) (hin : List.lookup key s.cache = some item) (hexp : item.expires < now) :
    (CacheSimulator.get s key now).1 = none ∧
    (CacheSimulator.get s key now).2.cache = eraseKey s.cache key ∧
    (CacheSimulator.get s key now).2.miss_count = s.miss_count + 1 ∧
    (CacheSimulator.get s key now).2.eviction_count = s.eviction_count + 1 ∧
    (CacheSimulator.get s key now).2.hit_count = s.hit_count := by
  simp [CacheSimulator.get, hin, hexp]

/-- Witness for C3 as amended, at `now = 301 > 300 = expires_at`. -/
theorem C3_expiry_amended_witness :
    (CacheSimulator.get (run (CacheSimulator.init (α := Nat) 10 300 .lru)
        [.set "k" 7 none 0]) "k" 301).1 = none ∧
    (CacheSimulator.get (run (CacheSimulator.init (α := Nat) 10 300 .lru)
        [.set "k" 7 none 0]) "k" 301).2.cache
      = eraseKey (run (CacheSimulator.init (α := Nat) 10 300 .lru)
          [.set "k" 7 none 0]).cache "k" ∧
    (CacheSimulator.get (run (CacheSimulator.init (α := Nat) 10 300 .lru)
        [.set "k" 7 none 0]) "k" 301).2.miss_count
      = (run (CacheSimulator.init (α := Nat) 10 300 .lru) [.set "k" 7 none 0]).miss_count + 1 ∧
    (CacheSimulator.get (run (CacheSimulator.init (α := Nat) 10 300 .lru)
        [.set "k" 7 none 0]) "k" 301).2.eviction_count
      = (run (CacheSimulator.init (α := Nat) 10 300 .lru) [.set "k" 7 none 0]).eviction_count + 1 ∧
    (CacheSimulator.get (run (CacheSimulator.init (α := Nat) 10 300 .lru)
        [.set "k" 7 none 0]) "k" 301).2.hit_count
      = (run (CacheSimulator.init (α := Nat) 10 300 .lru) [.set "k" 7 none 0]).hit_count :=
  C3_expiry_amended (run (CacheSimulator.init (α := Nat) 10 300 .lru) [.set "k" 7 none 0])
    "k" ⟨7, 300, 0, 0, none⟩ 301 (by decide) (by decide)

/-- Claim C4, evaluated at the failing input: `set("k", 7, custom_ttl=0)`
at time 0 on a cache with default ttl 300 stores the entry with
`expires = 300` — Python's `custom_ttl or self.ttl` treats the explicit
`0` as falsy and silently substitutes the default ttl — so the immediate
`get("k")` is a hit returning the value, with `miss_count` and
`eviction_count` both left at 0, contradicting the documented
immediate-expiry behaviour. -/
theorem C4_zero_ttl_eval :
    (List.lookup "k" (CacheSimulator.set (CacheSimulator.init (α := Nat) 10 300 .fifo)
        "k" 7 (some 0) 0).2.cache = some ⟨7, 300, 0, 0, none⟩) ∧
    (CacheSimulator.get (CacheSimulator.set (CacheSimulator.init (α := Nat) 10 300 .fifo)
        "k" 7 (some 0) 0).2 "k" 0).1 = some 7 ∧
    (CacheSimulator.get (CacheSimulator.set (CacheSimulator.init (α := Nat) 10 300 .fifo)
        "k" 7 (some 0) 0).2 "k" 0).2.hit_count = 1 ∧
    (CacheSimulator.get (CacheSimulator.set (CacheSimulator.init (α := Nat) 10 300 .fifo)
        "k" 7 (some 0) 0).2 "k" 0).2.miss_count = 0 ∧
    (CacheSimulator.get (CacheSimulator.set (CacheSimulator.init (α := Nat) 10 300 .fifo)
        "k" 7 (some 0) 0).2 "k" 0).2.eviction_count = 0 := by
  decide

/-! ### Construction (C5) -/

/-- Counterexample to claim C5: constructing with capacity 0 does not fail
— `__init__` performs no validation and raises nothing, so the
construction succeeds with `max_size = 0`. -/
theorem C5_counterexample :
    CacheSimulator.initE (α := Nat) 0 300 .lru
        = Except.ok (CacheSimulator.init 0 300 .lru) ∧
    (CacheSimulator.init (α := Nat) 0 300 .lru).max_size = 0 :=
  ⟨rfl, rfl⟩

/-- Claim C5 as amended: construction takes `max_size` and a default ttl
and never fails — any capacity (including non-positive) is accepted with
no InvalidConfig condition; the strategy used is drawn at construction
from the four values `{lru, lfu, fifo, ttl}` (modelled as an explicit
argument standing for `random.choice`, not a caller-chosen parameter) and
is fixed for the cache's lifetime: no sequence of operations changes the
strategy, capacity or default ttl. -/
theorem C5_construction_amended {α : Type} (cap dttl : Int) (strat : Strategy)
    (ops : List (Op α)) :
    CacheSimulator.initE (α := α) cap dttl strat
        = Except.ok (CacheSimulator.init cap dttl strat) ∧
    (run (CacheSimulator.init cap dttl strat) ops).strategy = strat ∧
    (run (CacheSimulator.init cap dttl strat) ops).max_size = cap ∧
    (run (CacheSimulator.init cap dttl strat) ops).ttl = dttl := by
  have h := run_config (CacheSimulator.init (α := α) cap dttl strat) ops
  exact ⟨rfl, h.2.2, h.1, h.2.1⟩

/-! ### Eviction on `set` (C6) -/

/-- Counterexample to claim C6: at capacity 1 with key `"a"` already
stored, the overwriting `set("a", 2)` still triggers an eviction — the
code checks only `len(cache) >= max_size`, not whether the key is new —
so `eviction_count` ends at 1 where the claim requires 0. -/
theorem C6_counterexample :
    (run (CacheSimulator.init (α := Nat) 1 300 .fifo) [.set "a" 1 none 0]).cache.map Prod.fst
        = ["a"] ∧
    (run (CacheSimulator.init (α := Nat) 1 300 .fifo)
        [.set "a" 1 none 0, .set "a" 2 none 1]).eviction_count = 1 := by
  decide

/-- Claim C6 as amended: a `set` triggers exactly one eviction whenever
the store holds at least `max_size` entries at call time and is non-empty,
regardless of whether the key is already present (an overwrite at capacity
also evicts); otherwise `eviction_count` is unchanged. -/
theorem C6_set_eviction_amended {α : Type} (s : CacheState α) (k : String) (v : α)
    (t : Option Int) (now : Int) :
    (CacheSimulator.set s k v t now).2.eviction_count =
      if s.max_size ≤ (s.cache.length : Int) ∧ s.cache.length ≠ 0
      then s.eviction_count + 1 else s.eviction_count := by
  by_cases h : s.max_size ≤ (s.cache.length : Int)
  · by_cases hc : s.cache = []
    · have hlen : s.cache.length = 0 := by simp [hc]
      simp [CacheSimulator.set, h, evict_empty hc, hlen]
    · obtain ⟨k', _, heq⟩ := evict_nonempty hc
      have hlen : s.cache.length ≠ 0 := by
        have := List.length_pos.2 hc
        omega
      simp [CacheSimulator.set, h, heq, hlen]
  · have hcond : ¬ (s.max_size ≤ (s.cache.length : Int) ∧ s.cache.length ≠ 0) :=
      fun hh => h hh.1
    simp [CacheSimulator.set, h, hcond]

/-! ### LRU recency (C7) -/

/-- Counterexample to claim C7: capacity 3, strategy lru, after
`set(a)`, `set(b)`, `set(a, v')`, `set(c)` the next eviction removes `a`,
not `b` — assigning to an existing `OrderedDict` key keeps its old
position, so the overwriting `set(a, v')` does not refresh `a`'s
recency. -/
theorem C7_counterexample :
    (CacheSimulator.evict (run (CacheSimulator.init (α := Nat) 3 300 .lru)
        [.set "a" 1 none 0, .set "b" 2 none 0, .set "a" 10 none 0, .set "c" 3 none 0])).1
      = some "a" ∧
    ¬ (CacheSimulator.evict (run (CacheSimulator.init (α := Nat) 3 300 .lru)
        [.set "a" 1 none 0, .set "b" 2 none 0, .set "a" 10 none 0, .set "c" 3 none 0])).1
      = some "b" := by
  decide

/-- Claim C7 as amended: under the lru strategy a `get` on a live key marks
it most recently used (it is moved to the end of the order), and `evict`
removes the key at the front of the order (the least recently used); a
`set` that overwrites an existing key, however, leaves that key's recency
position unchanged.  In the capacity-3 scenario `set(a)`, `set(b)`,
`set(a,v')`, `set(c)`, the next eviction therefore removes `a`; replacing
the overwriting `set(a,v')` with `get(a)` makes the next eviction remove
`b`. -/
theorem C7_lru_amended (s : CacheState Nat) (key : String) (item : Entry Nat) (now : Int)
    (hlru : s.strategy = .lru) (hin : List.lookup key s.cache = some item)
    (hlive : ¬ item.expires < now) :
    (CacheSimulator.get s key now).2.cache
        = eraseKey s.cache key
            ++ [(key, { item with accessed := item.accessed + 1, last_access := some now })] ∧
    (CacheSimulator.evict s).1 = s.cache.head?.map Prod.fst ∧
    (CacheSimulator.evict (run (CacheSimulator.init (α := Nat) 3 300 .lru)
        [.set "a" 1 none 0, .set "b" 2 none 0, .set "a" 10 none 0, .set "c" 3 none 0])).1
      = some "a" ∧
    (CacheSimulator.evict (run (CacheSimulator.init (α := Nat) 3 300 .lru)
        [.set "a" 1 none 0, .set "b" 2 none 0, .get "a" 0, .set "c" 3 none 0])).1
      = some "b" := by
  refine ⟨?_, ?_, by decide, by decide⟩
  · simp [CacheSimulator.get, hin, hlive, hlru, eraseKey_ordInsert]
  · rcases hc : s.cache with _ | ⟨⟨k0, e0⟩, rest⟩
    · simp [CacheSimulator.evict, hc]
    · simp [CacheSimulator.evict, hc, hlru]

/-- Witness for C7 as amended, on a concrete one-entry lru cache. -/
theorem C7_lru_amended_witness :
    (CacheSimulator.get (run (CacheSimulator.init (α := Nat) 10 300 .lru)
        [.set "k" 7 none 0]) "k" 5).2.cache
        = eraseKey (run (CacheSimulator.init (α := Nat) 10 300 .lru)
            [.set "k" 7 none 0]).cache "k" ++ [("k", ⟨7, 300, 0, 1, some 5⟩)] ∧
    (CacheSimulator.evict (run (CacheSimulator.init (α := Nat) 10 300 .lru)
        [.set "k" 7 none 0])).1
      = (run (CacheSimulator.init (α := Nat) 10 300 .lru)
            [.set "k" 7 none 0]).cache.head?.map Prod.fst ∧
    (CacheSimulator.evict (run (CacheSimulator.init (α := Nat) 3 300 .lru)
        [.set "a" 1 none 0, .set "b" 2 none 0, .set "a" 10 none 0, .set "c" 3 none 0])).1
      = some "a" ∧
    (CacheSimulator.evict (run (CacheSimulator.init (α := Nat) 3 300 .lru)
        [.set "a" 1 none 0, .set "b" 2 none 0, .get "a" 0, .set "c" 3 none 0])).1
      = some "b" :=
  C7_lru_amended (run (CacheSimulator.init (α := Nat) 10 300 .lru) [.set "k" 7 none 0])
    "k" ⟨7, 300, 0, 0, none⟩ 5 (by decide) (by decide) (by decide)

/-! ### LFU eviction (C8) -/

/-- Claim C8: under the lfu strategy, `evict` on a non-empty store (with
unique keys, as an `OrderedDict` always has) removes exactly one entry
`(k, e)` whose `accessed` count is minimal among all stored entries, and
every entry placed earlier in the store's iteration order has a strictly
larger count — among ties the earliest-positioned key wins,
deterministically.  Under lfu the iteration order is exactly the order of
insertion: the last two conjuncts show that a `get` never reorders the
surviving keys and that a `set` either overwrites a key in place or
appends a genuinely new key at the end, so the victim is the
earliest-inserted key still present with minimal access count. -/
theorem C8_lfu_evict {α : Type} (s : CacheState α) (hlfu : s.strategy = .lfu)
    (hne : s.cache ≠ []) (hnd : (s.cache.map Prod.fst).Nodup) :
    (∃ l1 k e l2,
      s.cache = l1 ++ (k, e) :: l2 ∧
      (CacheSimulator.evict s).1 = some k ∧
      (∀ p ∈ s.cache, e.accessed ≤ p.2.accessed) ∧
      (∀ p ∈ l1, e.accessed < p.2.accessed) ∧
      (CacheSimulator.evict s).2.cache = l1 ++ l2 ∧
      (CacheSimulator.evict s).2.eviction_count = s.eviction_count + 1) ∧
    (∀ (k' : String) (now : Int),
      (CacheSimulator.get s k' now).2.cache.map Prod.fst = s.cache.map Prod.fst ∨
      (CacheSimulator.get s k' now).2.cache.map Prod.fst
        = (eraseKey s.cache k').map Prod.fst) ∧
    (∀ (k' : String) (v : α) (t : Option Int) (now : Int),
      ∃ mid, (mid = s.cache ∨ mid = (CacheSimulator.evict s).2.cache) ∧
        (CacheSimulator.set s k' v t now).2.cache.map Prod.fst =
          (if k' ∈ mid.map Prod.fst
           then mid.map Prod.fst else mid.map Prod.fst ++ [k'])) := by
  refine ⟨?_, ?_, ?_⟩
  · rcases hc : s.cache with _ | ⟨⟨k0, e0⟩, rest⟩
    · exact absurd hc hne
    · rcases minKeyFold_split (fun e => (e.accessed : Int)) rest k0 (e0.accessed : Int) with
        ⟨heq, hall⟩ | ⟨l1', q, l2', hsplit, heq, hlt, hbefore, hafter⟩
      · refine ⟨[], k0, e0, rest, by simp, ?_, ?_, by simp, ?_, ?_⟩
        · simp [CacheSimulator.evict, hc, hlfu, heq]
        · intro p hp
          rcases List.mem_cons.1 hp with hp | hp
          · simp [hp]
          · exact_mod_cast hall p hp
        · simp [CacheSimulator.evict, hc, hlfu, heq, eraseKey_cons]
        · simp [CacheSimulator.evict, hc, hlfu]
      · have hltn : q.2.accessed < e0.accessed := by exact_mod_cast hlt
        refine ⟨(k0, e0) :: l1', q.1, q.2, l2', by simp [hsplit], ?_, ?_, ?_, ?_, ?_⟩
        · simp [CacheSimulator.evict, hc, hlfu, heq]
        · intro p hp
          rw [hsplit] at hp
          rcases List.mem_cons.1 hp with hp | hp
          · simp [hp]
            omega
          · rcases List.mem_append.1 hp with hp | hp
            · have h2 : q.2.accessed < p.2.accessed := by exact_mod_cast hbefore p hp
              omega
            · rcases List.mem_cons.1 hp with hp | hp
              · simp [hp]
              · exact_mod_cast hafter p hp
        · intro p hp
          rcases List.mem_cons.1 hp with hp | hp
          · simp [hp]
            omega
          · exact_mod_cast hbefore p hp
        · have hq1 : q.1 ∉ ((k0, e0) :: l1').map Prod.fst := by
            intro hmem
            rw [hc, hsplit] at hnd
            have hmap : (((k0, e0) :: (l1' ++ q :: l2')).map Prod.fst)
                = ((k0, e0) :: l1').map Prod.fst ++ q.1 :: l2'.map Prod.fst := by
              simp
            rw [hmap] at hnd
            rcases List.nodup_append.1 hnd with ⟨_, _, hdisj⟩
            exact hdisj hmem (by simp)
          have herase := eraseKey_append_of_not_mem q.2 l2' hq1
          simp only [CacheSimulator.evict, hc, hlfu, heq]
          rw [hsplit]
          simpa using herase
        · simp [CacheSimulator.evict, hc, hlfu]
  · intro k' now
    cases hl : List.lookup k' s.cache with
    | none => exact Or.inl (by simp [CacheSimulator.get, hl])
    | some item =>
        by_cases h : item.expires < now
        · exact Or.inr (by simp [CacheSimulator.get, hl, h])
        · refine Or.inl ?_
          have hstrat : ¬ s.strategy = .lru := by
            rw [hlfu]
            intro hcontra
            cases hcontra
          have hmem : k' ∈ s.cache.map Prod.fst := lookup_mem_fst hl
          simp [CacheSimulator.get, hl, h, hstrat, ordInsert_map_fst, hmem]
  · intro k' v t now
    by_cases h : s.max_size ≤ (s.cache.length : Int)
    · exact ⟨(CacheSimulator.evict s).2.cache, Or.inr rfl,
        by simp [CacheSimulator.set, h, ordInsert_map_fst]⟩
    · exact ⟨s.cache, Or.inl rfl,
        by simp [CacheSimulator.set, h, ordInsert_map_fst]⟩

/-- Witness for C8 on a concrete lfu store: keys `a`, `b`, `c` inserted in
that order and `a` then read once, so the minimal count 0 is shared by `b`
and `c` and the earliest-inserted of them is evicted. -/
theorem C8_lfu_evict_witness :
    (∃ l1 k e l2,
      (run (CacheSimulator.init (α := Nat) 10 300 .lfu)
          [.set "a" 1 none 0, .set "b" 2 none 0, .set "c" 3 none 0, .get "a" 1]).cache
        = l1 ++ (k, e) :: l2 ∧
      (CacheSimulator.evict (run (CacheSimulator.init (α := Nat) 10 300 .lfu)
          [.set "a" 1 none 0, .set "b" 2 none 0, .set "c" 3 none 0, .get "a" 1])).1 = some k ∧
      (∀ p ∈ (run (CacheSimulator.init (α := Nat) 10 300 .lfu)
          [.set "a" 1 none 0, .set "b" 2 none 0, .set "c" 3 none 0, .get "a" 1]).cache,
        e.accessed ≤ p.2.accessed) ∧
      (∀ p ∈ l1, e.accessed < p.2.accessed) ∧
      (CacheSimulator.evict (run (CacheSimulator.init (α := Nat) 10 300 .lfu)
          [.set "a" 1 none 0, .set "b" 2 none 0, .set "c" 3 none 0, .get "a" 1])).2.cache
        = l1 ++ l2 ∧
      (CacheSimulator.evict (run (CacheSimulator.init (α := Nat) 10 300 .lfu)
          [.set "a" 1 none 0, .set "b" 2 none 0, .set "c" 3 none 0, .get "a" 1])).2.eviction_count
        = (run (CacheSimulator.init (α := Nat) 10 300 .lfu)
            [.set "a" 1 none 0, .set "b" 2 none 0, .set "c" 3 none 0, .get "a" 1]).eviction_count
          + 1) ∧
    (∀ (k' : String) (now : Int),
      (CacheSimulator.get (run (CacheSimulator.init (α := Nat) 10 300 .lfu)
          [.set "a" 1 none 0, .set "b" 2 none 0, .set "c" 3 none 0, .get "a" 1])
          k' now).2.cache.map Prod.fst
        = (run (CacheSimulator.init (α := Nat) 10 300 .lfu)
            [.set "a" 1 none 0, .set "b" 2 none 0, .set "c" 3 none 0,
              .get "a" 1]).cache.map Prod.fst ∨
      (CacheSimulator.get (run (CacheSimulator.init (α := Nat) 10 300 .lfu)
          [.set "a" 1 none 0, .set "b" 2 none 0, .set "c" 3 none 0, .get "a" 1])
          k' now).2.cache.map Prod.fst
        = (eraseKey (run (CacheSimulator.init (α := Nat) 10 300 .lfu)
            [.set "a" 1 none 0, .set "b" 2 none 0, .set "c" 3 none 0,
              .get "a" 1]).cache k').map Prod.fst) ∧
    (∀ (k' : String) (v : Nat) (t : Option Int) (now : Int),
      ∃ mid, (mid = (run (CacheSimulator.init (α := Nat) 10 300 .lfu)
            [.set "a" 1 none 0, .set "b" 2 none 0, .set "c" 3 none 0, .get "a" 1]).cache ∨
          mid = (CacheSimulator.evict (run (CacheSimulator.init (α := Nat) 10 300 .lfu)
            [.set "a" 1 none 0, .set "b" 2 none 0, .set "c" 3 none 0,
              .get "a" 1])).2.cache) ∧
        (CacheSimulator.set (run (CacheSimulator.init (α := Nat) 10 300 .lfu)
            [.set "a" 1 none 0, .set "b" 2 none 0, .set "c" 3 none 0, .get "a" 1])
            k' v t now).2.cache.map Prod.fst =
          (if k' ∈ mid.map Prod.fst
           then mid.map Prod.fst else mid.map Prod.fst ++ [k'])) :=
  C8_lfu_evict (run (CacheSimulator.init (α := Nat) 10 300 .lfu)
      [.set "a" 1 none 0, .set "b" 2 none 0, .set "c" 3 none 0, .get "a" 1])
    (by decide) (by decide) (by decide)

/-! ### The `evict` contract (C9) -/

/-- Claim C9: `evict` on an empty store returns `None` and leaves the
entire state (counters included) unchanged — the empty case is handled
internally, no exception reaches the caller (the embedded operation is a
total function); `evict` on a non-empty store returns the key chosen by
the active policy, removes exactly that one entry (the store shrinks by
exactly one, by the policy victim's binding being erased), increments
`eviction_count` by exactly one, and changes nothing else. -/
theorem C9_evict_contract {α : Type} (s : CacheState α) :
    if s.cache.length = 0 then CacheSimulator.evict s = (none, s)
    else ∃ k, k ∈ s.cache.map Prod.fst ∧
      (CacheSimulator.evict s).1 = some k ∧
      (CacheSimulator.evict s).2.cache = eraseKey s.cache k ∧
      (CacheSimulator.evict s).2.cache.length + 1 = s.cache.length ∧
      (CacheSimulator.evict s).2.eviction_count = s.eviction_count + 1 ∧
      (CacheSimulator.evict s).2.hit_count = s.hit_count ∧
      (CacheSimulator.evict s).2.miss_count = s.miss_count ∧
      (CacheSimulator.evict s).2.access_count = s.access_count ∧
      (CacheSimulator.evict s).2.max_size = s.max_size ∧
      (CacheSimulator.evict s).2.ttl = s.ttl ∧
      (CacheSimulator.evict s).2.strategy = s.strategy := by
  by_cases h : s.cache.length = 0
  · have hc : s.cache = [] := List.length_eq_zero.1 h
    simp [h, evict_empty hc]
  · have hc : s.cache ≠ [] := by
      intro hnil
      exact h (by simp [hnil])
    obtain ⟨k, hmem, heq⟩ := evict_nonempty hc
    simp only [if_neg h]
    exact ⟨k, hmem, by simp [heq], by simp [heq],
      by simp [heq, eraseKey_length_of_mem hmem], by simp [heq], by simp [heq],
      by simp [heq], by simp [heq], by simp [heq], by simp [heq], by simp [heq]⟩

/-! ### The `expires_at > created_at` invariant (C10) -/

/-- Counterexample to claim C10: a `set` with the explicit custom ttl `-1`
(allowed by the claim's "of any value") stores an entry with
`expires = now - 1 < now = created`, violating `expires_at > created_at`. -/
theorem C10_counterexample :
    ¬ (∀ p ∈ (run (CacheSimulator.init (α := Nat) 10 300 .lru)
          [.set "k" 7 (some (-1)) 0]).cache, p.2.created < p.2.expires) := by
  decide

theorem evict_cache_subset {α : Type} (s : CacheState α) {p : String × Entry α}
    (hp : p ∈ (CacheSimulator.evict s).2.cache) : p ∈ s.cache := by
  by_cases h : s.cache = []
  · rw [evict_empty h] at hp
    exact hp
  · obtain ⟨k, _, heq⟩ := evict_nonempty h
    rw [heq] at hp
    exact eraseKey_subset hp

/-- The effective ttl computed by `set` is positive when the default is
positive and the custom ttl is absent, zero (falsy) or positive. -/
theorem eff_ttl_pos (dttl : Int) (t : Option Int) (httl : 0 < dttl)
    (hok : ∀ t', t = some t' → t' = 0 ∨ 0 < t') :
    0 < (match t with | none => dttl | some t' => if t' = 0 then dttl else t') := by
  cases t with
  | none => simpa using httl
  | some t' =>
      by_cases ht : t' = 0
      · simpa [ht] using httl
      · rcases hok t' rfl with h0 | h0
        · exact absurd h0 ht
        · simpa [ht] using h0

/-- One step preserves `created < expires` for every stored entry, given a
positive default ttl and a benign custom ttl. -/
theorem step_expiry {α : Type} {s : CacheState α} (op : Op α) (httl : 0 < s.ttl)
    (hop : ttlOk op = true) (hinv : ∀ p ∈ s.cache, p.2.created < p.2.expires) :
    ∀ p ∈ (step s op).cache, p.2.created < p.2.expires := by
  cases op with
  | set k v t now =>
      have hok : ∀ t', t = some t' → t' = 0 ∨ 0 < t' := by
        intro t' ht'
        rw [ht'] at hop
        simp [ttlOk] at hop
        tauto
      by_cases h : s.max_size ≤ (s.cache.length : Int)
      · intro p hp
        simp only [step, CacheSimulator.set, if_pos h] at hp
        rcases mem_ordInsert hp with hp' | hp'
        · have heff := eff_ttl_pos (CacheSimulator.evict s).2.ttl t
            (by rw [(evict_config s).2.1]; exact httl) hok
          rw [hp']
          simpa using heff
        · exact hinv p (evict_cache_subset s hp')
      · intro p hp
        simp only [step, CacheSimulator.set, if_neg h] at hp
        rcases mem_ordInsert hp with hp' | hp'
        · have heff := eff_ttl_pos s.ttl t httl hok
          rw [hp']
          simpa using heff
        · exact hinv p hp'
  | get k now =>
      cases hl : List.lookup k s.cache with
      | none =>
          intro p hp
          simp only [step, CacheSimulator.get, hl] at hp
          exact hinv p hp
      | some item =>
          have hitem : (k, item) ∈ s.cache := lookup_mem hl
          by_cases h : item.expires < now
          · intro p hp
            simp only [step, CacheSimulator.get, hl, if_pos h] at hp
            exact hinv p (eraseKey_subset hp)
          · intro p hp
            simp only [step, CacheSimulator.get, hl, if_neg h] at hp
            by_cases hstrat : s.strategy = .lru
            · rw [if_pos hstrat] at hp
              rcases List.mem_append.1 hp with hp' | hp'
              · rw [eraseKey_ordInsert] at hp'
                exact hinv p (eraseKey_subset hp')
              · have hp2 :
                    p = (k, ⟨item.value, item.expires, item.created,
                      item.accessed + 1, some now⟩) := by
                  simpa using hp'
                have := hinv (k, item) hitem
                rw [hp2]
                simpa using this
            · rw [if_neg hstrat] at hp
              rcases mem_ordInsert hp with hp' | hp'
              · have := hinv (k, item) hitem
                rw [hp']
                simpa using this
              · exact hinv p hp'
  | evict =>
      intro p hp
      exact hinv p (evict_cache_subset s hp)
  | delete k =>
      intro p hp
      by_cases h : (List.lookup k s.cache).isSome
      · simp only [step, CacheSimulator.delete, if_pos h] at hp
        exact hinv p (eraseKey_subset hp)
      · simp only [step, CacheSimulator.delete, if_neg h] at hp
        exact hinv p hp

theorem run_expiry {α : Type} (s : CacheState α) (ops : List (Op α)) (httl : 0 < s.ttl)
    (hops : ops.all ttlOk = true) (hinv : ∀ p ∈ s.cache, p.2.created < p.2.expires) :
    ∀ p ∈ (run s ops).cache, p.2.created < p.2.expires := by
  induction ops generalizing s with
  | nil => exact hinv
  | cons op rest ih =>
      have h1 : ttlOk op = true ∧ rest.all ttlOk = true := by
        simpa [List.all_cons] using hops
      have httl' : 0 < (step s op).ttl := by
        rw [(step_config s op).2.1]
        exact httl
      exact ih (step s op) httl' h1.2 (step_expiry op httl h1.1 hinv)

/-- Claim C10 as amended: provided the default ttl is positive and every
explicit custom ttl passed to `set` is either absent, the falsy `0`
(which silently selects the default ttl) or positive, every entry present
in the store satisfies `expires_at > created_at` after every operation;
with a negative custom ttl the invariant is violated. -/
theorem C10_expiry_amended {α : Type} (cap dttl : Int) (strat : Strategy)
    (ops : List (Op α)) (h0 : 0 < dttl) (hops : ops.all ttlOk = true) :
    ∀ p ∈ (run (CacheSimulator.init cap dttl strat) ops).cache,
      p.2.created < p.2.expires :=
  run_expiry (CacheSimulator.init cap dttl strat) ops (by simpa [CacheSimulator.init])
    hops (by simp [CacheSimulator.init])

/-- Witness for C10 as amended: default ttl 300, custom ttls `none`, `0`
and `5`, checked on the concrete entry stored for key `a`. -/
theorem C10_expiry_amended_witness :
    ("a", (⟨1, 300, 0, 0, none⟩ : Entry Nat)) ∈
      (run (CacheSimulator.init (α := Nat) 10 300 .lru)
        [.set "a" 1 none 0, .set "b" 2 (some 0) 0, .set "c" 3 (some 5) 0]).cache ∧
    ("a", (⟨1, 300, 0, 0, none⟩ : Entry Nat)).2.created
      < ("a", (⟨1, 300, 0, 0, none⟩ : Entry Nat)).2.expires :=
  ⟨by decide,
    C10_expiry_amended 10 300 .lru
      [.set "a" 1 none 0, .set "b" 2 (some 0) 0, .set "c" 3 (some 5) 0]
      (by decide) (by decide) ("a", (⟨1, 300, 0, 0, none⟩ : Entry Nat)) (by decide)⟩
